import Mathlib

/-!
Shallow embedding of the film-scraper repository (src/config.py, src/utils.py,
src/data_cleaning.py, src/wikimedia_api.py, src/scrape_wiki.py) and proofs of
the specification claims C1-C10.

Python strings are modelled as lists of Unicode code points (`List Char`).
Pandas DataFrames are modelled as lists of row records; Python dicts as
insertion-ordered association lists (`List (key × value)`).
-/

namespace FilmScrape

/-- A Python string: a sequence of Unicode code points. -/
abbrev Str := List Char

/-- Whitespace characters recognised by Python `str.strip` and by the regex
class in the patterns of `data_cleaning.py` (ASCII whitespace; the exotic
Unicode space code points are not modelled, no claim depends on them). -/
def isPySpace (c : Char) : Bool :=
  c = ' ' || c = '\t' || c = '\n' || c = '\r' || c = '\x0b' || c = '\x0c'

/-- Python `str.lstrip()`. -/
def lstrip (s : Str) : Str := s.dropWhile isPySpace

/-- Python `str.rstrip()`. -/
def rstrip (s : Str) : Str := (s.reverse.dropWhile isPySpace).reverse

/-- Python `str.strip()`. -/
def pyStrip (s : Str) : Str := rstrip (lstrip s)

/-- Python `str.split(sep)` for a one-character separator `sep`.
`splitOnCh c []` is `[[]]`, matching Python where `''.split(';') == ['']`;
the recursive result is never empty, so `headD`/`tail` give its head field
and remaining fields. -/
def splitOnCh (sep : Char) : Str → List Str
  | [] => [[]]
  | c :: rest =>
    let r := splitOnCh sep rest
    if c = sep then [] :: r else (c :: r.headD []) :: r.tail

/-- Lexicographic comparison of Python strings by code point,
the order used by Python `sorted` on `str`. -/
def lexLe : Str → Str → Bool
  | [], _ => true
  | _ :: _, [] => false
  | a :: as, b :: bs => if a < b then true else if b < a then false else lexLe as bs

/-- `lexLe` as a decidable relation, for use with `List.insertionSort`. -/
def lexLeP (a b : Str) : Prop := lexLe a b = true

instance : DecidableRel lexLeP := fun a b => inferInstanceAs (Decidable (lexLe a b = true))

/-- Python `sorted`.  Python's sort is a stable sort; `List.insertionSort` is
also stable, and two stable sorts agree on every list whose comparator is a
total preorder, which `lexLeP` is. -/
def pySortStr (l : List Str) : List Str := List.insertionSort lexLeP l

/-- The separator `"; "` used by `'; '.join(...)` in the source. -/
def semiSpace : Str := [';', ' ']

/-- Python `'; '.join(parts)`. -/
def joinSemiSpace : List Str → Str
  | [] => []
  | [p] => p
  | p :: q :: rest => p ++ ';' :: ' ' :: joinSemiSpace (q :: rest)

-- ---------------------------------------------------------------------------
-- src/data_cleaning.py
-- ---------------------------------------------------------------------------

/-- The quotation-mark fixes in `clean_titles` and `clean_summaries` are
`replace('"', '"')` on the straight ASCII double quote in the source text,
i.e. they replace the character with itself.  Embedded as the corresponding
character map, which is the identity. -/
def replaceQuoteChars (s : Str) : Str := s.map (fun c => if c = '"' then '"' else c)

/-- `clean_title` inner function of `clean_titles`: strip, then the
quotation-mark replacement (the `" (film)"` branch of the source is a `pass`). -/
def clean_title : Option Str → Option Str
  | none => none
  | some t => some (replaceQuoteChars (pyStrip t))

/-- Does the string start with `"tt"`? (Python `imdb_id.startswith('tt')`.) -/
def startsWithTT : Str → Bool
  | 't' :: 't' :: _ => true
  | _ => false

/-- Python regex `^tt\d+$` (digits modelled as ASCII digits). -/
def matchesImdbPattern : Str → Bool
  | 't' :: 't' :: ds => ds ≠ [] && ds.all Char.isDigit
  | _ => false

/-- `standardize_imdb` inner function of `standardize_imdb_ids`:
strip, prefix `"tt"` to a non-empty id lacking it, validate `^tt\d+$`,
else null. -/
def standardize_imdb : Option Str → Option Str
  | none => none
  | some v =>
    let s := pyStrip v
    let s2 := if s ≠ [] && !startsWithTT s then 't' :: 't' :: s else s
    if matchesImdbPattern s2 then some s2 else none

/-- `clean_year` inner function of `normalize_years`, on the integer-valued
path (for an integral input, `int(float(year))` is the identity).
`currentYear` stands for `pd.Timestamp.now().year`, which is time-dependent
and therefore a parameter of the embedding. -/
def clean_year (currentYear : Int) : Option Int → Option Int
  | none => none
  | some y => if 1890 ≤ y ∧ y ≤ currentYear then some y else none

/-- Replace `'\n'` by a space and remove `'\r'`, as in `clean_summary`. -/
def replaceNewlines (s : Str) : Str :=
  (s.map (fun c => if c = '\n' then ' ' else c)).filter (fun c => c ≠ '\r')

/-- Worker for `collapseWs`: the flag records whether the scan is inside a
whitespace run whose first character has already been emitted as `' '`. -/
def collapseGo : Bool → Str → Str
  | _, [] => []
  | inRun, c :: rest =>
    if isPySpace c then
      if inRun then collapseGo true rest else ' ' :: collapseGo true rest
    else c :: collapseGo false rest

/-- Python `re.sub(r'\s+', ' ', s)`: each maximal whitespace run becomes one
space. -/
def collapseWs (s : Str) : Str := collapseGo false s

/-- `clean_summary` inner function of `clean_summaries`: null or empty maps to
null; otherwise strip, quotation-mark fix, newline fixes, whitespace collapse. -/
def clean_summary : Option Str → Option Str
  | none => none
  | some s =>
    if s = [] then none
    else some (collapseWs (replaceNewlines (replaceQuoteChars (pyStrip s))))

/-- `clean_people` inner function of `normalize_people`: null or empty maps to
null; otherwise split on `';'`, strip each part, drop empties, deduplicate and
sort (`sorted(list(set(...)))`), join with `"; "`; an empty list maps to null. -/
def clean_people : Option Str → Option Str
  | none => none
  | some s =>
    if s = [] then none
    else
      let parts := ((splitOnCh ';' s).map pyStrip).filter (fun p => p ≠ [])
      let sortedParts := pySortStr parts.dedup
      if sortedParts = [] then none else some (joinSemiSpace sortedParts)

/-- One row of the assembled DataFrame (columns of `assemble_csv`). -/
structure Row where
  title : Option Str
  imdb_id : Option Str
  year : Option Int
  summary : Option Str
  people : Option Str
deriving DecidableEq

/-- The five column-wise cleaning passes of `clean_dataset`, applied to one
row.  The passes touch disjoint columns, so applying them row-wise in source
order is the same as applying them column-wise in source order. -/
def cleanRow (currentYear : Int) (r : Row) : Row :=
  { title := clean_title r.title
    imdb_id := standardize_imdb r.imdb_id
    year := clean_year currentYear r.year
    summary := clean_summary r.summary
    people := clean_people r.people }

/-- `df.drop_duplicates(subset=['title'], keep='first')`: keep the first row
for each title value (null titles compare equal, as in pandas). -/
def dedupByTitleGo (seen : List (Option Str)) : List Row → List Row
  | [] => []
  | r :: rest =>
    if r.title ∈ seen then dedupByTitleGo seen rest
    else r :: dedupByTitleGo (r.title :: seen) rest

/-- Entry point of the duplicate-title drop. -/
def dedupByTitle (rows : List Row) : List Row := dedupByTitleGo [] rows

/-- Strict "before" on the year sort key of
`sort_values(by=['year','title'], ascending=[False, True], na_position='last')`:
year descending with nulls last. -/
def yearLtB : Option Int → Option Int → Bool
  | some x, some y => decide (y < x)
  | some _, none => true
  | none, _ => false

/-- Non-strict "not after" on the title sort key: title ascending with nulls
last. -/
def titleLeB : Option Str → Option Str → Bool
  | none, none => true
  | none, some _ => false
  | some _, none => true
  | some a, some b => lexLe a b

/-- The row comparator realised by the multi-column `sort_values` call of
`clean_dataset`. -/
def rowLe (a b : Row) : Bool :=
  yearLtB a.year b.year || (decide (a.year = b.year) && titleLeB a.title b.title)

/-- `rowLe` as a decidable relation. -/
def rowLeP (a b : Row) : Prop := rowLe a b = true

instance : DecidableRel rowLeP := fun a b => inferInstanceAs (Decidable (rowLe a b = true))

/-- `clean_dataset`: the five cleaning passes, then `drop_duplicates` on
title keeping the first, then the sort by (year descending, title ascending,
nulls last).  In the source the duplicate drop comes before the sort.
The pandas sort is stable, as is `List.insertionSort`. -/
def clean_dataset (currentYear : Int) (df : List Row) : List Row :=
  List.insertionSort rowLeP (dedupByTitle (df.map (cleanRow currentYear)))

/-- A row after `enrich_dataset` and `add_language_column` (the `language`
field is `none` until `add_language_column` fills it). -/
structure FullRow where
  title : Option Str
  imdb_id : Option Str
  year : Option Int
  summary : Option Str
  people : Option Str
  decade : Option Int
  people_count : Nat
  has_summary : Bool
  language : Option Str
deriving DecidableEq

/-- `extract_decade` inner function of `enrich_dataset`: `int(year // 10 * 10)`
with Python floor division. -/
def extract_decade : Option Int → Option Int
  | none => none
  | some y => some (y.fdiv 10 * 10)

/-- `count_people` inner function of `enrich_dataset`:
`len(people.split(';'))`, and `0` for null. -/
def count_people : Option Str → Nat
  | none => 0
  | some p => (splitOnCh ';' p).length

/-- `enrich_dataset` on one row: adds `decade`, `people_count`, `has_summary`. -/
def enrichRow (r : Row) : FullRow :=
  { title := r.title, imdb_id := r.imdb_id, year := r.year,
    summary := r.summary, people := r.people,
    decade := extract_decade r.year,
    people_count := count_people r.people,
    has_summary := r.summary.isSome,
    language := none }

/-- `enrich_dataset`. -/
def enrich_dataset (df : List Row) : List FullRow := df.map enrichRow

/-- The fixed language vocabulary of `add_language_column`, in the alternation
order of the built regex pattern. -/
def languages : List Str :=
  ["Hindi", "Tamil", "Telugu", "Malayalam", "Kannada",
   "Bengali", "Marathi", "Punjabi", "Gujarati", "Assamese",
   "Odia", "Bhojpuri", "Urdu"].map String.data

/-- Case-insensitive pattern consumption: if `s` starts with `pat` ignoring
case, return the remainder of `s`. -/
def dropCaseless : Str → Str → Option Str
  | [], s => some s
  | _ :: _, [] => none
  | p :: ps, c :: cs => if c.toLower = p.toLower then dropCaseless ps cs else none

/-- Does the regex `(?i)lang[\s\-]language` match at the start of `s`? -/
def matchLangHere (s : Str) (lang : Str) : Bool :=
  match dropCaseless lang s with
  | none => false
  | some rest =>
    match rest with
    | [] => false
    | c :: rest2 =>
      (isPySpace c || c = '-') && (dropCaseless ['l','a','n','g','u','a','g','e'] rest2).isSome

/-- `re.search` of the pattern `(?i)(Hindi|...|Urdu)[\s\-]language`: scan
positions left to right, and at each position try the alternatives in order.
The source returns `match.group(1).title()`; because every vocabulary entry is
a single word already in title case, that equals the vocabulary entry itself,
which is what this function returns. -/
def findLangScan : Str → Option Str
  | [] => none
  | c :: rest =>
    match languages.find? (matchLangHere (c :: rest)) with
    | some lang => some lang
    | none => findLangScan rest

/-- `extract_language` inner function of `add_language_column`. -/
def extract_language (summary : Option Str) : Option Str :=
  match summary with
  | none => none
  | some s => findLangScan s

/-- `add_language_column` on one row. -/
def addLanguageRow (r : FullRow) : FullRow :=
  { r with language := extract_language r.summary }

/-- `add_language_column`. -/
def add_language_column (df : List FullRow) : List FullRow := df.map addLanguageRow

-- ---------------------------------------------------------------------------
-- Python dicts as insertion-ordered association lists
-- ---------------------------------------------------------------------------

/-- Python `d.get(k)` / `d[k]` lookup on an insertion-ordered dict. -/
def dlookup {α : Type} (k : Str) : List (Str × α) → Option α
  | [] => none
  | p :: rest => if k = p.1 then some p.2 else dlookup k rest

/-- Python `d[k] = v`: overwrite in place if the key is present, else append
the new key at the end (dict insertion order). -/
def dinsert {α : Type} (m : List (Str × α)) (k : Str) (v : α) : List (Str × α) :=
  if (dlookup k m).isSome then m.map (fun p => if p.1 = k then (k, v) else p)
  else m ++ [(k, v)]

-- ---------------------------------------------------------------------------
-- src/config.py
-- ---------------------------------------------------------------------------

/-- `MAX_CONCURRENCY` from `src/config.py`. -/
def MAX_CONCURRENCY : Nat := 50

-- ---------------------------------------------------------------------------
-- src/utils.py
-- ---------------------------------------------------------------------------

/-- `chunked` from `src/utils.py`: `for i in range(0, len(it), size): yield
it[i:i+size]`.  The iteration indices `0, size, 2*size, ...` below `len(it)`
number `⌈len(it)/size⌉`.  The source only calls this with positive sizes
(50 and 200); size `0`, for which Python `range` raises, maps to `[]`. -/
def chunked {α : Type} (l : List α) (size : Nat) : List (List α) :=
  if size = 0 then []
  else (List.range ((l.length + size - 1) / size)).map (fun i => (l.drop (i * size)).take size)

-- ---------------------------------------------------------------------------
-- src/wikimedia_api.py: async summary fetching
-- ---------------------------------------------------------------------------

/-- The observable outcome of the HTTP GET issued by `_fetch_summary` for one
title: a response with a status code and a parsed `extract` field, or a
transport-level / parse exception raised during the request. -/
inductive FetchOutcome where
  | resp (status : Nat) (extract : Option Str)
  | exn
deriving DecidableEq

/-- `_fetch_summary`: a non-200 status returns `None`; a 200 returns
`data.get("extract")`; an exception propagates (there is no try/except in
the source). -/
def fetchSummaryResult : FetchOutcome → Except Unit (Option Str)
  | .resp status extract => if status = 200 then .ok extract else .ok none
  | .exn => .error ()

/-- The summary value `_fetch_summary` delivers for a non-raising outcome:
the extract on a 200, null on any other status.  (On an exception nothing is
delivered; the `.exn` case here is never reached by the theorems.) -/
def okSummary : FetchOutcome → Option Str
  | .resp status extract => if status = 200 then extract else none
  | .exn => none

/-- The result-collection loop of `gather_summaries`: `as_completed` yields
the per-title futures in completion order; each is awaited and written into
the `out` dict.  Awaiting a future whose worker raised re-raises, aborting
the loop (and hence the whole gather).  `env` gives each title's fetch
outcome; `order` is the completion order of the futures. -/
def gatherGo (env : Str → FetchOutcome) :
    List Str → List (Str × Option Str) → Except Unit (List (Str × Option Str))
  | [], out => .ok out
  | t :: rest, out =>
    match fetchSummaryResult (env t) with
    | .error e => .error e
    | .ok s => gatherGo env rest (dinsert out t s)

/-- `gather_summaries` for a given completion order of the spawned tasks
(one task per input title; a valid completion order is a permutation of the
input titles). -/
def gather_summaries (env : Str → FetchOutcome) (order : List Str) :
    Except Unit (List (Str × Option Str)) :=
  gatherGo env order []

-- ---------------------------------------------------------------------------
-- src/wikimedia_api.py: the semaphore discipline of gather_summaries
-- ---------------------------------------------------------------------------

/-- Scheduler-level state of one `gather_summaries` run: `permits` is the
counter of `asyncio.Semaphore(MAX_CONCURRENCY)`; `waiting` tasks have been
created but not yet entered `async with sem`; `inFlight` tasks hold a permit
(their HTTP request is open); `finished` tasks have released the permit. -/
structure GatherSched where
  permits : Nat
  waiting : Nat
  inFlight : Nat
  finished : Nat
deriving DecidableEq

/-- A scheduler event: a task acquires the semaphore (possible only when the
counter is positive, else the task stays blocked), or an in-flight task
completes its request and releases the semaphore (`async with sem` releases
unconditionally, on error as well). -/
inductive SchedStep where
  | acquire
  | release
deriving DecidableEq

/-- One scheduler transition; `none` when the event is not enabled. -/
def schedStep (s : GatherSched) : SchedStep → Option GatherSched
  | .acquire =>
    if 0 < s.waiting ∧ 0 < s.permits then
      some ⟨s.permits - 1, s.waiting - 1, s.inFlight + 1, s.finished⟩
    else none
  | .release =>
    if 0 < s.inFlight then
      some ⟨s.permits + 1, s.waiting, s.inFlight - 1, s.finished + 1⟩
    else none

/-- Initial state of a gather over `n` titles: all `n` tasks are created
eagerly, none holds a permit, and the semaphore counter is the configured
ceiling. -/
def initSched (n maxc : Nat) : GatherSched := ⟨maxc, n, 0, 0⟩

/-- Run a sequence of scheduler events; `none` if any event was not enabled. -/
def execTrace (s : GatherSched) : List SchedStep → Option GatherSched
  | [] => some s
  | st :: rest =>
    match schedStep s st with
    | none => none
    | some s2 => execTrace s2 rest

-- ---------------------------------------------------------------------------
-- src/wikimedia_api.py: query_wikidata_batch
-- ---------------------------------------------------------------------------

/-- One binding row returned by `run_sparql` for the batched metadata query:
`?film` is always bound (a full entity URI); `?imdb`, `?date`, `?personLabel`
are optional. -/
structure SparqlRow where
  film : Str
  imdb : Option Str
  date : Option Str
  personLabel : Option Str
deriving DecidableEq

/-- `row["film"].split("/")[-1]`: the Q-ID is the last `/`-separated segment
of the entity URI. -/
def qidOf (uri : Str) : Str := (splitOnCh '/' uri).getLastD []

/-- Digits-to-number conversion used by the date parse model. -/
def digitsToNat (l : Str) : Nat := l.foldl (fun acc c => acc * 10 + (c.toNat - 48)) 0

/-- `datetime.fromisoformat(s.split("T")[0]).year`: parse `YYYY-MM-DD` and
return the year, or `none` when the parse raises.  Month and day validity is
approximated by range checks (day-in-month exactness is irrelevant to every
claim: a date is either well-formed or malformed). -/
def isoDateYear (s : Str) : Option Int :=
  match (splitOnCh 'T' s).headD [] with
  | [y1, y2, y3, y4, '-', m1, m2, '-', d1, d2] =>
    if [y1, y2, y3, y4, m1, m2, d1, d2].all Char.isDigit then
      let mo := digitsToNat [m1, m2]
      let da := digitsToNat [d1, d2]
      if 1 ≤ mo ∧ mo ≤ 12 ∧ 1 ≤ da ∧ da ≤ 31 then
        some ((digitsToNat [y1, y2, y3, y4] : Nat) : Int)
      else none
    else none
  | _ => none

/-- Python truthiness of an optional string: `None` and `""` are falsy. -/
def truthyS : Option Str → Bool
  | none => false
  | some s => s ≠ []

/-- Python `a or b` on optional strings. -/
def orPy (a b : Option Str) : Option Str := if truthyS a then a else b

/-- The per-Q-ID accumulator of `query_wikidata_batch`
(`{"imdb_id": None, "year": None, "people": set()}`; the set is modelled as
its insertion-ordered list of distinct elements). -/
structure MetaAccum where
  imdb_id : Option Str
  year : Option Int
  people : List Str
deriving DecidableEq

/-- The empty accumulator (`setdefault` default). -/
def emptyAccum : MetaAccum := ⟨none, none, []⟩

/-- Python `set.add`: insert if not already present. -/
def insertNew (l : List Str) (x : Str) : List Str := if x ∈ l then l else l ++ [x]

/-- The body of the row loop of `query_wikidata_batch`, applied to the entry
for the row's Q-ID: `e["imdb_id"] = e["imdb_id"] or row.get("imdb")`; the
year is parsed from the first row with a `date` binding while `e["year"]` is
still null, with a parse failure leaving it null; the person label, if bound,
is added to the set. -/
def mergeOne (e : MetaAccum) (row : SparqlRow) : MetaAccum :=
  let e1 := { e with imdb_id := orPy e.imdb_id row.imdb }
  let e2 :=
    match row.date, e1.year with
    | some d, none => { e1 with year := isoDateYear d }
    | _, _ => e1
  match row.personLabel with
  | some p => { e2 with people := insertNew e2.people p }
  | none => e2

/-- One iteration of the row loop: `out.setdefault(qid, ...)` then the
in-place update of that entry. -/
def mergeRow (out : List (Str × MetaAccum)) (row : SparqlRow) : List (Str × MetaAccum) :=
  let qid := qidOf row.film
  dinsert out qid (mergeOne ((dlookup qid out).getD emptyAccum) row)

/-- A finished metadata record (`imdb_id`, `year`, `people` columns). -/
structure MetaRecord where
  imdb_id : Option Str
  year : Option Int
  people : Option Str
deriving DecidableEq

/-- The final pass of `query_wikidata_batch`:
`"; ".join(sorted(e["people"])) if e["people"] else None`. -/
def finalizeAccum (a : MetaAccum) : MetaRecord :=
  { imdb_id := a.imdb_id, year := a.year,
    people :=
      if a.people = [] then none
      else some (joinSemiSpace (pySortStr a.people)) }

/-- `query_wikidata_batch`, as a function of the binding rows the SPARQL
endpoint returns for the batch. -/
def query_wikidata_batch (rows : List SparqlRow) : List (Str × MetaRecord) :=
  (rows.foldl mergeRow []).map (fun p => (p.1, finalizeAccum p.2))

-- ---------------------------------------------------------------------------
-- src/scrape_wiki.py: assembly and checkpointed stages
-- ---------------------------------------------------------------------------

/-- The row-building loop of `assemble_csv`: one row per entry of `qid_map`
(in dict insertion order); `m = meta_map.get(qid, {})` so a missing Q-ID
yields all-null metadata fields; `summaries.get(title)` is `None` both for a
missing key and for a stored null. -/
def assembleRows (qid_map : List (Str × Str)) (meta_map : List (Str × MetaRecord))
    (summaries : List (Str × Option Str)) : List Row :=
  qid_map.map (fun tq =>
    let m := dlookup tq.2 meta_map
    { title := some tq.1
      imdb_id := m.bind MetaRecord.imdb_id
      year := m.bind MetaRecord.year
      summary := (dlookup tq.1 summaries).join
      people := m.bind MetaRecord.people })

/-- `assemble_csv` up to the DataFrame written to disk: build rows, then
`clean_dataset`, `enrich_dataset`, `add_language_column`. -/
def assemble_csv (qid_map : List (Str × Str)) (meta_map : List (Str × MetaRecord))
    (summaries : List (Str × Option Str)) (currentYear : Int) : List FullRow :=
  add_language_column (enrich_dataset (clean_dataset currentYear
    (assembleRows qid_map meta_map summaries)))

/-- The checkpoint write of `fetch_summaries`:
`{k: v if v is not None else "" for k, v in summaries.items()}` —
null summaries are stored as the empty string. -/
def jsonSafeSummaries (m : List (Str × Option Str)) : List (Str × Str) :=
  m.map (fun p => (p.1, p.2.getD []))

/-- `fetch_summaries` as a function of the checkpoint-file state: with an
existing checkpoint it loads and returns the stored mapping (whose values
are plain strings) and performs no network work; otherwise it runs
`gather_summaries` over the titles of `qid_map`, writes the json-safe
checkpoint, and returns the gathered mapping.  Result components: the value
returned (or the propagated exception), the checkpoint state afterwards, and
the number of summary HTTP requests issued. -/
def fetch_summaries (cp : Option (List (Str × Str))) (qid_map : List (Str × Str))
    (env : Str → FetchOutcome) (order : List Str) :
    Except Unit (List (Str × Option Str)) × Option (List (Str × Str)) × Nat :=
  match cp with
  | some m => (.ok (m.map (fun p => (p.1, some p.2))), some m, 0)
  | none =>
    match gather_summaries env order with
    | .error e => (.error e, none, qid_map.length)
    | .ok m => (.ok m, some (jsonSafeSummaries m), qid_map.length)

/-- The metadata-fetch work loop of `fetch_metadata`: the Q-IDs are chunked
into batches of 200 and `meta_map.update(query_wikidata_batch(batch))` is
applied per batch.  `sparqlEnv` gives the binding rows the endpoint returns
for each batch. -/
def fetchMetadataWork (qids : List Str) (sparqlEnv : List Str → List SparqlRow) :
    List (Str × MetaRecord) :=
  (chunked qids 200).foldl
    (fun acc batch => (query_wikidata_batch (sparqlEnv batch)).foldl
      (fun m p => dinsert m p.1 p.2) acc) []

/-- `fetch_metadata` as a function of the checkpoint-file state.  The
checkpoint serialisation is the identity on the stored records: every field
value is a string, an int or null, which JSON round-trips verbatim (the
`str(v)` fallback in the source never fires on these types).  Result
components: the returned mapping, the checkpoint state afterwards, and the
number of SPARQL queries issued. -/
def fetch_metadata (cp : Option (List (Str × MetaRecord))) (qids : List Str)
    (sparqlEnv : List Str → List SparqlRow) :
    List (Str × MetaRecord) × Option (List (Str × MetaRecord)) × Nat :=
  match cp with
  | some m => (m, some m, 0)
  | none =>
    let m := fetchMetadataWork qids sparqlEnv
    (m, some m, (chunked qids 200).length)

-- ---------------------------------------------------------------------------
-- Definitions following the spec's words, for refinement comparison
-- ---------------------------------------------------------------------------

/-- Deduplication as worded by the spec: "drop rows with duplicate titles
keeping the first after a global sort by (year descending, title ascending,
nulls last)" — i.e. sort first, then keep the first row per title.  Stated
for comparison with `clean_dataset`, whose source deduplicates before
sorting. -/
def clean_dataset_specOrder (currentYear : Int) (df : List Row) : List Row :=
  dedupByTitle (List.insertionSort rowLeP (df.map (cleanRow currentYear)))

/-- The "first non-null" selection as worded by the spec's merge rule for
external ids, for comparison with the Python `or`-fold of the source. -/
def firstNonNull (l : List (Option Str)) : Option Str := (l.find? Option.isSome).join

-- ===========================================================================
-- Lemmas: comparator properties
-- ===========================================================================

theorem lexLe_total (a : Str) : ∀ b, (lexLe a b || lexLe b a) = true := by
  induction a with
  | nil => intro b; simp [lexLe]
  | cons x xs ih =>
    intro b
    cases b with
    | nil => simp [lexLe]
    | cons y ys =>
      simp only [lexLe]
      rcases lt_trichotomy x y with h | h | h
      · simp [h]
      · subst h
        simp only [lt_irrefl, if_false]
        exact ih ys
      · simp [h, lt_asymm h]

theorem lexLe_trans : ∀ a b c : Str, lexLe a b = true → lexLe b c = true → lexLe a c = true := by
  intro a
  induction a with
  | nil => intro b c _ _; simp [lexLe]
  | cons x xs ih =>
    intro b c hab hbc
    cases b with
    | nil => simp [lexLe] at hab
    | cons y ys =>
      cases c with
      | nil => simp [lexLe] at hbc
      | cons z zs =>
        simp only [lexLe] at hab hbc ⊢
        rcases lt_trichotomy x y with hxy | hxy | hxy
        · rcases lt_trichotomy y z with hyz | hyz | hyz
          · simp [lt_trans hxy hyz]
          · subst hyz; simp [hxy]
          · rw [if_neg (lt_asymm hyz), if_pos hyz] at hbc; simp at hbc
        · subst hxy
          rcases lt_trichotomy x z with hxz | hxz | hxz
          · simp [hxz]
          · subst hxz
            simp only [lt_irrefl, if_false] at hab hbc ⊢
            exact ih ys zs hab hbc
          · rw [if_neg (lt_asymm hxz), if_pos hxz] at hbc; simp at hbc
        · rw [if_neg (lt_asymm hxy), if_pos hxy] at hab; simp at hab

theorem lexLe_antisymm : ∀ a b : Str, lexLe a b = true → lexLe b a = true → a = b := by
  intro a
  induction a with
  | nil =>
    intro b _ hba
    cases b with
    | nil => rfl
    | cons y ys => simp [lexLe] at hba
  | cons x xs ih =>
    intro b hab hba
    cases b with
    | nil => simp [lexLe] at hab
    | cons y ys =>
      simp only [lexLe] at hab hba
      rcases lt_trichotomy x y with h | h | h
      · rw [if_neg (lt_asymm h), if_pos h] at hba; simp at hba
      · subst h
        simp only [lt_irrefl, if_false] at hab hba
        rw [ih ys hab hba]
      · rw [if_neg (lt_asymm h), if_pos h] at hab; simp at hab

theorem titleLeB_total (a b : Option Str) : (titleLeB a b || titleLeB b a) = true := by
  cases a with
  | none => cases b <;> simp [titleLeB]
  | some s =>
    cases b with
    | none => simp [titleLeB]
    | some t => simpa [titleLeB] using lexLe_total s t

theorem titleLeB_trans (a b c : Option Str) :
    titleLeB a b = true → titleLeB b c = true → titleLeB a c = true := by
  cases a <;> cases b <;> cases c <;> simp [titleLeB] <;> intros <;>
    first
    | rfl
    | exact lexLe_trans _ _ _ (by assumption) (by assumption)

theorem yearLtB_trans (x y z : Option Int) :
    yearLtB x y = true → yearLtB y z = true → yearLtB x z = true := by
  cases x <;> cases y <;> cases z <;> simp [yearLtB] <;> omega

theorem rowLe_total (a b : Row) : (rowLe a b || rowLe b a) = true := by
  simp only [rowLe]
  cases ha : a.year <;> cases hb : b.year
  · simpa [yearLtB] using titleLeB_total a.title b.title
  · simp [yearLtB]
  · simp [yearLtB]
  · rename_i x y
    rcases lt_trichotomy x y with h | h | h
    · simp [yearLtB, h, lt_asymm h]
    · subst h
      simpa [yearLtB, lt_irrefl] using titleLeB_total a.title b.title
    · simp [yearLtB, h, lt_asymm h]

theorem rowLe_trans (a b c : Row) :
    rowLe a b = true → rowLe b c = true → rowLe a c = true := by
  simp only [rowLe, Bool.or_eq_true, Bool.and_eq_true, decide_eq_true_eq]
  rintro (hab | ⟨hyeq1, ht1⟩) (hbc | ⟨hyeq2, ht2⟩)
  · exact Or.inl (yearLtB_trans _ _ _ hab hbc)
  · exact Or.inl (hyeq2 ▸ hab)
  · exact Or.inl (hyeq1 ▸ hbc)
  · exact Or.inr ⟨hyeq1.trans hyeq2, titleLeB_trans _ _ _ ht1 ht2⟩

-- ===========================================================================
-- Lemmas: duplicate-title removal
-- ===========================================================================

theorem mem_dedupByTitleGo_map_title (l : List Row) : ∀ (seen : List (Option Str)) (t : Option Str),
    t ∈ (dedupByTitleGo seen l).map Row.title ↔ t ∈ l.map Row.title ∧ t ∉ seen := by
  induction l with
  | nil => simp [dedupByTitleGo]
  | cons r rest ih =>
    intro seen t
    simp only [dedupByTitleGo]
    by_cases h : r.title ∈ seen
    · rw [if_pos h, ih seen t]
      simp only [List.map_cons, List.mem_cons]
      constructor
      · rintro ⟨hm, hn⟩
        exact ⟨Or.inr hm, hn⟩
      · rintro ⟨hm | hm, hn⟩
        · exact absurd (hm ▸ h) hn
        · exact ⟨hm, hn⟩
    · rw [if_neg h]
      simp only [List.map_cons, List.mem_cons, ih (r.title :: seen) t, List.mem_cons]
      constructor
      · rintro (rfl | ⟨hm, hn⟩)
        · exact ⟨Or.inl rfl, h⟩
        · exact ⟨Or.inr hm, fun hc => hn (Or.inr hc)⟩
      · rintro ⟨hm | hm, hn⟩
        · exact Or.inl hm
        · by_cases ht : t = r.title
          · exact Or.inl ht
          · exact Or.inr ⟨hm, fun hc => hc.elim ht hn⟩

theorem nodup_dedupByTitleGo (l : List Row) :
    ∀ seen : List (Option Str), ((dedupByTitleGo seen l).map Row.title).Nodup := by
  induction l with
  | nil => intro seen; simp [dedupByTitleGo]
  | cons r rest ih =>
    intro seen
    simp only [dedupByTitleGo]
    by_cases h : r.title ∈ seen
    · rw [if_pos h]; exact ih seen
    · rw [if_neg h]
      simp only [List.map_cons, List.nodup_cons]
      refine ⟨fun hc => ?_, ih _⟩
      rw [mem_dedupByTitleGo_map_title] at hc
      exact hc.2 (List.mem_cons_self _ _)

-- ===========================================================================
-- Claim C1
-- ===========================================================================

/-- Claim C1 (amended): `clean_dataset` keeps exactly one row per distinct
(cleaned) title — the output titles are duplicate-free and cover exactly the
titles of the cleaned input — and the rows kept are the first occurrences in
input order (the output is a permutation of the keep-first duplicate drop of
the cleaned rows), after which the table is sorted by (year descending,
title ascending, nulls last).  The source deduplicates before sorting, so the
kept row is the first in input order, not the first after sorting. -/
theorem c1_dedup_keeps_first_input_occurrence (currentYear : Int) (df : List Row) :
    ((clean_dataset currentYear df).map Row.title).Nodup ∧
    (clean_dataset currentYear df).Perm (dedupByTitle (df.map (cleanRow currentYear))) ∧
    (∀ t, t ∈ (clean_dataset currentYear df).map Row.title ↔
      t ∈ (df.map (cleanRow currentYear)).map Row.title) ∧
    List.Sorted rowLeP (clean_dataset currentYear df) := by
  have hperm : (clean_dataset currentYear df).Perm (dedupByTitle (df.map (cleanRow currentYear))) :=
    List.perm_insertionSort _ _
  have hmapperm := hperm.map Row.title
  refine ⟨?_, hperm, ?_, ?_⟩
  · exact hmapperm.nodup_iff.mpr (nodup_dedupByTitleGo _ _)
  · intro t
    rw [hmapperm.mem_iff, dedupByTitle, mem_dedupByTitleGo_map_title]
    simp
  · exact @List.sorted_insertionSort _ rowLeP _
      ⟨fun a b => by simpa [rowLeP, Bool.or_eq_true] using rowLe_total a b⟩
      ⟨fun a b c => rowLe_trans a b c⟩ _

/-- Claim C1 (counterexample): with two rows of title `"A"` and years 2000
then 2010, the source keeps the year-2000 row (first in input order), while
the claim's sort-then-deduplicate order would keep the year-2010 row. -/
theorem c1_counterexample :
    let df : List Row := [⟨some "A".data, none, some 2000, none, none⟩,
                          ⟨some "A".data, none, some 2010, none, none⟩]
    (clean_dataset 2025 df).map Row.year = [some 2000] ∧
    (clean_dataset_specOrder 2025 df).map Row.year = [some 2010] ∧
    clean_dataset 2025 df ≠ clean_dataset_specOrder 2025 df := by decide

-- ===========================================================================
-- Claim C7
-- ===========================================================================

/-- Claim C7: year normalization nulls every year outside
`[1890, current_year]` and preserves every integer year inside the range. -/
theorem c7_year_range_normalization (currentYear y : Int) :
    (¬ (1890 ≤ y ∧ y ≤ currentYear) → clean_year currentYear (some y) = none) ∧
    ((1890 ≤ y ∧ y ≤ currentYear) → clean_year currentYear (some y) = some y) := by
  constructor <;> intro h <;> simp [clean_year, h]

/-- Witness for C7 at year 1889 (out of range) and year 2005 (in range),
with current year 2025. -/
theorem c7_year_range_normalization_witness :
    clean_year 2025 (some 1889) = none ∧ clean_year 2025 (some 2005) = some 2005 :=
  ⟨(c7_year_range_normalization 2025 1889).1 (by decide),
   (c7_year_range_normalization 2025 2005).2 (by decide)⟩

-- ===========================================================================
-- Lemmas: scheduler invariant, and Claim C2
-- ===========================================================================

theorem execTrace_permit_invariant (trace : List SchedStep) :
    ∀ (s0 s : GatherSched) (maxc : Nat), s0.permits + s0.inFlight = maxc →
      execTrace s0 trace = some s → s.permits + s.inFlight = maxc := by
  induction trace with
  | nil =>
    intro s0 s maxc hinv h
    simp only [execTrace, Option.some.injEq] at h
    exact h ▸ hinv
  | cons st rest ih =>
    intro s0 s maxc hinv h
    cases st with
    | acquire =>
      by_cases hc : 0 < s0.waiting ∧ 0 < s0.permits
      · simp only [execTrace, schedStep, if_pos hc] at h
        exact ih _ s maxc (by simp; omega) h
      · simp only [execTrace, schedStep, if_neg hc] at h
        exact absurd h (by simp)
    | release =>
      by_cases hc : 0 < s0.inFlight
      · simp only [execTrace, schedStep, if_pos hc] at h
        exact ih _ s maxc (by simp; omega) h
      · simp only [execTrace, schedStep, if_neg hc] at h
        exact absurd h (by simp)

/-- Claim C2: in every schedule of a `gather_summaries` run over any number
`n` of titles, the number of in-flight requests never exceeds
`MAX_CONCURRENCY`: each unit of work holds a semaphore permit while its
request is open, the counter starts at `MAX_CONCURRENCY`, acquisition
requires a positive counter, and release is unconditional. -/
theorem c2_concurrency_bound (n : Nat) (trace : List SchedStep) (s : GatherSched)
    (h : execTrace (initSched n MAX_CONCURRENCY) trace = some s) :
    s.inFlight ≤ MAX_CONCURRENCY := by
  have hinv := execTrace_permit_invariant trace (initSched n MAX_CONCURRENCY) s
    MAX_CONCURRENCY (by simp [initSched]) h
  omega

/-- Witness for C2: a concrete three-title run that acquires twice and
releases once ends with one in-flight request, within the ceiling. -/
theorem c2_concurrency_bound_witness :
    (⟨49, 1, 1, 1⟩ : GatherSched).inFlight ≤ MAX_CONCURRENCY :=
  c2_concurrency_bound 3 [SchedStep.acquire, SchedStep.acquire, SchedStep.release]
    ⟨49, 1, 1, 1⟩ (by decide)

-- ===========================================================================
-- Claim C6
-- ===========================================================================

/-- Claim C6: the end-to-end scenario.  Titles `["Film A", "Film B"]` with
identifiers `Q1`, `Q2`, metadata only for `Q1` (imdb `tt123`, year 2005,
people `"X; Y"`), and a summary only for `"Film A"` assemble and clean to
exactly two rows: the `"Film A"` row has language `"Hindi"`, decade 2000,
`people_count` 2 and `has_summary` true; the `"Film B"` row has null derived
fields, count 0 and `has_summary` false; and the sort places `"Film A"`
(year 2005) before `"Film B"` (year null, sorted last).  The time-dependent
`pd.Timestamp.now().year` is instantiated at 2025. -/
theorem c6_end_to_end_scenario :
    let qm : List (Str × Str) := [("Film A".data, "Q1".data), ("Film B".data, "Q2".data)]
    let mm : List (Str × MetaRecord) :=
      [("Q1".data, ⟨some "tt123".data, some 2005, some "X; Y".data⟩),
       ("Q2".data, ⟨none, none, none⟩)]
    let sm : List (Str × Option Str) :=
      [("Film A".data, some "A Hindi-language drama.".data), ("Film B".data, none)]
    let out := assemble_csv qm mm sm 2025
    out.length = 2 ∧
    out.map FullRow.title = [some "Film A".data, some "Film B".data] ∧
    out.map FullRow.language = [some "Hindi".data, none] ∧
    out.map FullRow.decade = [some 2000, none] ∧
    out.map FullRow.people_count = [2, 0] ∧
    out.map FullRow.has_summary = [true, false] ∧
    out.map FullRow.year = [some 2005, none] ∧
    out.map FullRow.imdb_id = [some "tt123".data, none] ∧
    out.map FullRow.people = [some "X; Y".data, none] ∧
    out.map FullRow.summary = [some "A Hindi-language drama.".data, none] := by
  decide

-- ===========================================================================
-- Lemmas: dict insertion and lookup
-- ===========================================================================

theorem dlookup_map_replace_ne {α : Type} (m : List (Str × α)) (k k2 : Str) (v : α)
    (h : k ≠ k2) :
    dlookup k (m.map (fun p => if p.1 = k2 then (k2, v) else p)) = dlookup k m := by
  induction m with
  | nil => rfl
  | cons a rest ih =>
    obtain ⟨a1, a2⟩ := a
    by_cases ha : a1 = k2
    · subst ha
      simp [dlookup, h, ih]
    · by_cases hk : k = a1
      · simp [dlookup, ha, hk]
      · simp [dlookup, ha, hk, ih]

theorem dlookup_append_single_ne {α : Type} (m : List (Str × α)) (k k2 : Str) (v : α)
    (h : k ≠ k2) :
    dlookup k (m ++ [(k2, v)]) = dlookup k m := by
  induction m with
  | nil => simp [dlookup, if_neg h]
  | cons a rest ih =>
    obtain ⟨a1, a2⟩ := a
    by_cases hk : k = a1
    · simp [dlookup, hk]
    · simp [dlookup, hk, ih]

theorem dlookup_dinsert_ne {α : Type} (m : List (Str × α)) (k k2 : Str) (v : α)
    (h : k ≠ k2) : dlookup k (dinsert m k2 v) = dlookup k m := by
  unfold dinsert
  by_cases hp : (dlookup k2 m).isSome
  · rw [if_pos hp]; exact dlookup_map_replace_ne m k k2 v h
  · rw [if_neg hp]; exact dlookup_append_single_ne m k k2 v h

theorem dlookup_map_replace_self {α : Type} (m : List (Str × α)) (k : Str) (v : α)
    (h : (dlookup k m).isSome = true) :
    dlookup k (m.map (fun p => if p.1 = k then (k, v) else p)) = some v := by
  induction m with
  | nil => simp [dlookup] at h
  | cons a rest ih =>
    obtain ⟨a1, a2⟩ := a
    by_cases ha : a1 = k
    · subst ha
      simp [dlookup]
    · have hk : k ≠ a1 := fun hc => ha hc.symm
      simp only [dlookup, if_neg hk] at h
      simp [dlookup, ha, hk, ih h]

theorem dlookup_append_single_self {α : Type} (m : List (Str × α)) (k : Str) (v : α)
    (h : dlookup k m = none) : dlookup k (m ++ [(k, v)]) = some v := by
  induction m with
  | nil => simp [dlookup]
  | cons a rest ih =>
    obtain ⟨a1, a2⟩ := a
    simp only [dlookup] at h
    by_cases hk : k = a1
    · rw [if_pos hk] at h; exact absurd h (by simp)
    · rw [if_neg hk] at h
      simp [dlookup, hk, ih h]

theorem dlookup_dinsert_self {α : Type} (m : List (Str × α)) (k : Str) (v : α) :
    dlookup k (dinsert m k v) = some v := by
  unfold dinsert
  by_cases hp : (dlookup k m).isSome
  · rw [if_pos hp]; exact dlookup_map_replace_self m k v hp
  · rw [if_neg hp]
    refine dlookup_append_single_self m k v ?_
    cases hl : dlookup k m with
    | none => rfl
    | some w => rw [hl] at hp; simp at hp

theorem dlookup_dinsert {α : Type} (m : List (Str × α)) (k k2 : Str) (v : α) :
    dlookup k (dinsert m k2 v) = if k = k2 then some v else dlookup k m := by
  by_cases h : k = k2
  · rw [if_pos h, h]; exact dlookup_dinsert_self m k2 v
  · rw [if_neg h]; exact dlookup_dinsert_ne m k k2 v h

-- ===========================================================================
-- Lemmas: the gather loop
-- ===========================================================================

theorem fetchSummaryResult_of_ne_exn (o : FetchOutcome) (h : o ≠ .exn) :
    fetchSummaryResult o = .ok (okSummary o) := by
  cases o with
  | resp status extract =>
    by_cases hs : status = 200 <;> simp [fetchSummaryResult, okSummary, hs]
  | exn => exact absurd rfl h

theorem gatherGo_no_exn (env : Str → FetchOutcome) (order : List Str) :
    ∀ acc : List (Str × Option Str), (∀ t ∈ order, env t ≠ .exn) →
      ∃ m, gatherGo env order acc = .ok m ∧
        ∀ t, dlookup t m = if t ∈ order then some (okSummary (env t)) else dlookup t acc := by
  induction order with
  | nil =>
    intro acc _
    exact ⟨acc, rfl, fun t => by simp⟩
  | cons t0 rest ih =>
    intro acc h
    have h0 : env t0 ≠ .exn := h t0 (List.mem_cons_self _ _)
    obtain ⟨m, hm, hl⟩ := ih (dinsert acc t0 (okSummary (env t0)))
      (fun t ht => h t (List.mem_cons_of_mem _ ht))
    refine ⟨m, ?_, ?_⟩
    · simp only [gatherGo, fetchSummaryResult_of_ne_exn _ h0]
      exact hm
    · intro t
      rw [hl t, dlookup_dinsert]
      by_cases hr : t ∈ rest
      · simp [hr, List.mem_cons]
      · by_cases ht0 : t = t0
        · simp [hr, ht0]
        · simp [hr, ht0, List.mem_cons]

theorem gatherGo_exn (env : Str → FetchOutcome) (order : List Str) :
    ∀ acc : List (Str × Option Str), (∃ t ∈ order, env t = .exn) →
      gatherGo env order acc = .error () := by
  induction order with
  | nil => intro acc h; simp at h
  | cons t0 rest ih =>
    intro acc h
    by_cases h0 : env t0 = .exn
    · simp [gatherGo, h0, fetchSummaryResult]
    · obtain ⟨t, ht, hexn⟩ := h
      rcases List.mem_cons.mp ht with rfl | htr
      · exact absurd hexn h0
      · simp only [gatherGo, fetchSummaryResult_of_ne_exn _ h0]
        exact ih _ ⟨t, htr, hexn⟩

-- ===========================================================================
-- Claim C3
-- ===========================================================================

/-- Claim C3 (counterexample): with title `"A"` raising a transport-level
exception and title `"B"` returning a 200 with a summary, `gather_summaries`
propagates the exception and returns no mapping at all — under either
completion order — so the failure of one title does abort the fetching of
the others (the claim says it never does). -/
theorem c3_counterexample :
    gather_summaries
      (fun t => if t = "A".data then FetchOutcome.exn else .resp 200 (some "ok".data))
      ["A".data, "B".data] = .error () ∧
    gather_summaries
      (fun t => if t = "A".data then FetchOutcome.exn else .resp 200 (some "ok".data))
      ["B".data, "A".data] = .error () :=
  ⟨rfl, rfl⟩

/-- Claim C3 (amended): a non-success (non-200) response resolves to a null
summary for that title alone, and when no title's fetch raises, every title
resolves independently of the others' statuses; a transport-level exception,
however, propagates out of `gather_summaries` and aborts the whole batch
(there is no try/except around `_fetch_summary` or `await fut`). -/
theorem c3_error_isolation (env : Str → FetchOutcome) (order : List Str) :
    ((∀ t ∈ order, env t ≠ .exn) →
      ∃ m, gather_summaries env order = .ok m ∧
        ∀ t ∈ order, dlookup t m = some (okSummary (env t))) ∧
    ((∃ t ∈ order, env t = .exn) → gather_summaries env order = .error ()) := by
  constructor
  · intro h
    obtain ⟨m, hm, hl⟩ := gatherGo_no_exn env order [] h
    exact ⟨m, hm, fun t ht => by rw [hl t, if_pos ht]⟩
  · intro h
    exact gatherGo_exn env order [] h

/-- Witness for C3 (amended): title `"A"` gets a 404 and resolves to a null
summary while title `"B"` still gets its summary; and a batch containing an
exception-raising title errors out. -/
theorem c3_error_isolation_witness :
    (∃ m, gather_summaries
        (fun t => if t = "A".data then FetchOutcome.resp 404 none
                  else FetchOutcome.resp 200 (some "ok".data))
        ["A".data, "B".data] = .ok m ∧
      ∀ t ∈ ["A".data, "B".data], dlookup t m =
        some (okSummary ((fun t => if t = "A".data then FetchOutcome.resp 404 none
                  else FetchOutcome.resp 200 (some "ok".data)) t))) ∧
    gather_summaries (fun _ => FetchOutcome.exn) ["A".data] = .error () :=
  ⟨(c3_error_isolation
      (fun t => if t = "A".data then FetchOutcome.resp 404 none
                else FetchOutcome.resp 200 (some "ok".data))
      ["A".data, "B".data]).1 (by decide),
   (c3_error_isolation (fun _ => FetchOutcome.exn) ["A".data]).2
      ⟨"A".data, by decide, rfl⟩⟩

-- ===========================================================================
-- Claim C9
-- ===========================================================================

/-- Claim C9: the mapping produced by `gather_summaries` does not depend on
the completion order of the per-title units of work: for any two completion
orders of the same title set, either both runs propagate an exception, or
both return mappings with identical content. -/
theorem c9_completion_order_independent (env : Str → FetchOutcome)
    (titles order1 order2 : List Str)
    (h1 : order1.Perm titles) (h2 : order2.Perm titles) :
    (gather_summaries env order1 = .error () ∧ gather_summaries env order2 = .error ()) ∨
    (∃ m1 m2, gather_summaries env order1 = .ok m1 ∧ gather_summaries env order2 = .ok m2 ∧
      ∀ t, dlookup t m1 = dlookup t m2) := by
  by_cases hexn : ∃ t ∈ titles, env t = .exn
  · obtain ⟨t, ht, he⟩ := hexn
    exact Or.inl ⟨gatherGo_exn env order1 [] ⟨t, h1.mem_iff.mpr ht, he⟩,
      gatherGo_exn env order2 [] ⟨t, h2.mem_iff.mpr ht, he⟩⟩
  · push_neg at hexn
    obtain ⟨m1, hm1, hl1⟩ := gatherGo_no_exn env order1 []
      (fun t ht => hexn t (h1.mem_iff.mp ht))
    obtain ⟨m2, hm2, hl2⟩ := gatherGo_no_exn env order2 []
      (fun t ht => hexn t (h2.mem_iff.mp ht))
    refine Or.inr ⟨m1, m2, hm1, hm2, fun t => ?_⟩
    rw [hl1 t, hl2 t]
    by_cases ht : t ∈ titles
    · rw [if_pos (h1.mem_iff.mpr ht), if_pos (h2.mem_iff.mpr ht)]
    · rw [if_neg (fun hc => ht (h1.mem_iff.mp hc)), if_neg (fun hc => ht (h2.mem_iff.mp hc))]

/-- Witness for C9: the two completion orders of a two-title batch produce
mappings with identical content. -/
theorem c9_completion_order_independent_witness :
    (gather_summaries (fun _ => FetchOutcome.resp 200 (some "s".data))
        ["A".data, "B".data] = .error () ∧
     gather_summaries (fun _ => FetchOutcome.resp 200 (some "s".data))
        ["B".data, "A".data] = .error ()) ∨
    (∃ m1 m2,
      gather_summaries (fun _ => FetchOutcome.resp 200 (some "s".data))
        ["A".data, "B".data] = .ok m1 ∧
      gather_summaries (fun _ => FetchOutcome.resp 200 (some "s".data))
        ["B".data, "A".data] = .ok m2 ∧
      ∀ t, dlookup t m1 = dlookup t m2) :=
  c9_completion_order_independent (fun _ => FetchOutcome.resp 200 (some "s".data))
    ["A".data, "B".data] ["A".data, "B".data] ["B".data, "A".data]
    (List.Perm.refl _) (List.Perm.swap _ _ _)

-- ===========================================================================
-- Claim C10
-- ===========================================================================

/-- Claim C10: when `gather_summaries` returns a mapping (no task raised),
its key set is exactly the set of distinct input titles — every input title
is a key, mapped to the summary its fetch delivered (text or null), and no
other key occurs. -/
theorem c10_result_keys_are_input_titles (env : Str → FetchOutcome)
    (titles order : List Str) (horder : order.Perm titles)
    (hnoexn : ∀ t ∈ titles, env t ≠ .exn) :
    ∃ m, gather_summaries env order = .ok m ∧
      (∀ t ∈ titles, dlookup t m = some (okSummary (env t))) ∧
      (∀ t, (dlookup t m).isSome ↔ t ∈ titles) := by
  obtain ⟨m, hm, hl⟩ := gatherGo_no_exn env order []
    (fun t ht => hnoexn t (horder.mem_iff.mp ht))
  refine ⟨m, hm, fun t ht => ?_, fun t => ?_⟩
  · rw [hl t, if_pos (horder.mem_iff.mpr ht)]
  · rw [hl t]
    by_cases ht : t ∈ titles
    · simp [horder.mem_iff.mpr ht, ht]
    · have hno : t ∉ order := fun hc => ht (horder.mem_iff.mp hc)
      simp [hno, ht, dlookup]

/-- Witness for C10 on a concrete two-title batch. -/
theorem c10_result_keys_are_input_titles_witness :
    ∃ m, gather_summaries
        (fun t => if t = "A".data then FetchOutcome.resp 404 none
                  else FetchOutcome.resp 200 (some "s".data))
        ["B".data, "A".data] = .ok m ∧
      (∀ t ∈ ["A".data, "B".data], dlookup t m =
        some (okSummary ((fun t => if t = "A".data then FetchOutcome.resp 404 none
                  else FetchOutcome.resp 200 (some "s".data)) t))) ∧
      (∀ t, (dlookup t m).isSome ↔ t ∈ ["A".data, "B".data]) :=
  c10_result_keys_are_input_titles
    (fun t => if t = "A".data then FetchOutcome.resp 404 none
              else FetchOutcome.resp 200 (some "s".data))
    ["A".data, "B".data] ["B".data, "A".data] (List.Perm.swap _ _ _) (by decide)

-- ===========================================================================
-- Claim C4
-- ===========================================================================

/-- Claim C4 (counterexample): a one-title run whose summary fetch returns a
404 stores the null summary as `""` in the checkpoint; the second run loads
the checkpoint verbatim and returns `""` where the first run returned null,
so the second run's output is not identical to the first run's. -/
theorem c4_counterexample :
    (fetch_summaries none [("A".data, "Q1".data)]
      (fun _ => FetchOutcome.resp 404 none) ["A".data]).1 = .ok [("A".data, none)] ∧
    (fetch_summaries none [("A".data, "Q1".data)]
      (fun _ => FetchOutcome.resp 404 none) ["A".data]).2.1 = some [("A".data, [])] ∧
    (fetch_summaries (some [("A".data, [])]) [("A".data, "Q1".data)]
      (fun _ => FetchOutcome.resp 404 none) ["A".data]).1 = .ok [("A".data, some [])] ∧
    (fetch_summaries (some [("A".data, [])]) [("A".data, "Q1".data)]
        (fun _ => FetchOutcome.resp 404 none) ["A".data]).1 ≠
      (fetch_summaries none [("A".data, "Q1".data)]
        (fun _ => FetchOutcome.resp 404 none) ["A".data]).1 := by
  refine ⟨rfl, rfl, rfl, fun h => ?_⟩
  simp only [fetch_summaries, gather_summaries, gatherGo, fetchSummaryResult] at h
  exact absurd h (by simp [dinsert, dlookup, jsonSafeSummaries])

/-- Claim C4 (amended): a second run of a checkpointed stage performs zero
network calls.  For the metadata stage the second run's output is identical
to the first run's; for the summaries stage the second run returns the first
run's mapping with every null summary replaced by the empty string, because
the checkpoint write encodes nulls as `""` and the loader returns the stored
strings verbatim. -/
theorem c4_checkpoint_idempotence (qm : List (Str × Str)) (env : Str → FetchOutcome)
    (order : List Str) (qids : List Str) (sparqlEnv : List Str → List SparqlRow) :
    (∀ m, (fetch_summaries none qm env order).1 = .ok m →
      fetch_summaries (fetch_summaries none qm env order).2.1 qm env order =
        (.ok (m.map (fun p => (p.1, some (p.2.getD [])))), some (jsonSafeSummaries m), 0)) ∧
    fetch_metadata (fetch_metadata none qids sparqlEnv).2.1 qids sparqlEnv =
      ((fetch_metadata none qids sparqlEnv).1, (fetch_metadata none qids sparqlEnv).2.1, 0) := by
  constructor
  · intro m hm
    cases hg : gather_summaries env order with
    | error e => simp [fetch_summaries, hg] at hm
    | ok m2 =>
      have hmm : m2 = m := by simpa [fetch_summaries, hg] using hm
      subst hmm
      simp [fetch_summaries, hg, jsonSafeSummaries, List.map_map, Function.comp]
  · simp [fetch_metadata]

/-- Witness for C4 (amended) on a one-title 404 run and an empty metadata
run: both second runs perform zero network calls. -/
theorem c4_checkpoint_idempotence_witness :
    fetch_summaries (fetch_summaries none [("A".data, "Q1".data)]
        (fun _ => FetchOutcome.resp 404 none) ["A".data]).2.1
      [("A".data, "Q1".data)] (fun _ => FetchOutcome.resp 404 none) ["A".data] =
      (.ok [("A".data, some [])], some [("A".data, [])], 0) ∧
    fetch_metadata (fetch_metadata none [] (fun _ => [])).2.1 [] (fun _ => []) =
      ((fetch_metadata none [] (fun _ => [])).1, (fetch_metadata none [] (fun _ => [])).2.1, 0) := by
  have h := c4_checkpoint_idempotence [("A".data, "Q1".data)]
    (fun _ => FetchOutcome.resp 404 none) ["A".data] [] (fun _ => [])
  exact ⟨by simpa using h.1 [("A".data, none)] rfl, h.2⟩

-- ===========================================================================
-- Lemmas: the metadata merge of query_wikidata_batch
-- ===========================================================================

theorem dlookup_map_value {α β : Type} (f : α → β) (m : List (Str × α)) (k : Str) :
    dlookup k (m.map (fun p => (p.1, f p.2))) = (dlookup k m).map f := by
  induction m with
  | nil => rfl
  | cons a rest ih =>
    obtain ⟨a1, a2⟩ := a
    by_cases hk : k = a1
    · simp [dlookup, hk]
    · simp [dlookup, hk, ih]

theorem foldl_orPy_of_truthy (l : List (Option Str)) :
    ∀ a, truthyS a = true → l.foldl orPy a = a := by
  induction l with
  | nil => intro a _; rfl
  | cons x rest ih =>
    intro a ha
    simp only [List.foldl_cons, orPy, if_pos ha]
    exact ih a ha

theorem foldl_orPy_of_falsy (l : List (Option Str)) :
    ∀ a, truthyS a = false → l.foldl orPy a =
      (match l.find? truthyS with
       | some v => v
       | none => l.getLastD a) := by
  induction l with
  | nil => intro a _; rfl
  | cons x rest ih =>
    intro a ha
    simp only [List.foldl_cons, orPy, if_neg (by simp [ha] : ¬ truthyS a = true)]
    by_cases hx : truthyS x
    · rw [foldl_orPy_of_truthy rest x hx]
      simp [List.find?_cons, hx]
    · rw [ih x (by simpa using hx)]
      cases hf : rest.find? truthyS with
      | none =>
        cases rest with
        | nil => simp [List.find?_cons, hx]
        | cons y t =>
          simp only [List.find?_cons, hx, hf]
          cases hg : (y :: t).getLast? with
          | none => simp [List.getLast?_eq_none_iff] at hg
          | some z => simp [List.find?_cons, hx, hf, hg]
      | some v => simp [List.find?_cons, hx, hf]

theorem mergeOne_imdb (e : MetaAccum) (r : SparqlRow) :
    (mergeOne e r).imdb_id = orPy e.imdb_id r.imdb := by
  obtain ⟨eim, ey, ep⟩ := e
  obtain ⟨rf, rim, rdt, rpl⟩ := r
  cases rdt <;> cases rpl <;> cases ey <;> rfl

theorem mergeOne_year (e : MetaAccum) (r : SparqlRow) :
    (mergeOne e r).year =
      (match e.year with
       | some y => some y
       | none => r.date.bind isoDateYear) := by
  obtain ⟨eim, ey, ep⟩ := e
  obtain ⟨rf, rim, rdt, rpl⟩ := r
  cases rdt <;> cases rpl <;> cases ey <;> rfl

theorem mergeOne_people (e : MetaAccum) (r : SparqlRow) :
    (mergeOne e r).people =
      (match r.personLabel with
       | some p => insertNew e.people p
       | none => e.people) := by
  obtain ⟨eim, ey, ep⟩ := e
  obtain ⟨rf, rim, rdt, rpl⟩ := r
  cases rdt <;> cases rpl <;> cases ey <;> rfl

theorem mem_insertNew (l : List Str) (p x : Str) : x ∈ insertNew l p ↔ x ∈ l ∨ x = p := by
  unfold insertNew
  by_cases hp : p ∈ l
  · rw [if_pos hp]
    constructor
    · exact Or.inl
    · rintro (h | rfl)
      · exact h
      · exact hp
  · rw [if_neg hp]
    simp

theorem nodup_insertNew (l : List Str) (p : Str) (h : l.Nodup) : (insertNew l p).Nodup := by
  unfold insertNew
  by_cases hp : p ∈ l
  · rwa [if_pos hp]
  · rw [if_neg hp]
    simp [List.nodup_append, h, hp]

theorem foldl_mergeOne_imdb (rs : List SparqlRow) : ∀ e : MetaAccum,
    (rs.foldl mergeOne e).imdb_id = (rs.map SparqlRow.imdb).foldl orPy e.imdb_id := by
  induction rs with
  | nil => intro e; rfl
  | cons r rest ih =>
    intro e
    simp only [List.foldl_cons, List.map_cons]
    rw [ih, mergeOne_imdb]

theorem foldl_mergeOne_year (rs : List SparqlRow) : ∀ e : MetaAccum,
    (rs.foldl mergeOne e).year =
      (match e.year with
       | some y => some y
       | none => rs.findSome? (fun r => r.date.bind isoDateYear)) := by
  induction rs with
  | nil => intro e; cases he : e.year <;> simp [he]
  | cons r rest ih =>
    intro e
    simp only [List.foldl_cons]
    rw [ih, mergeOne_year]
    cases he : e.year
    · cases hd : r.date.bind isoDateYear <;>
        simp [List.findSome?_cons, hd]
    · rfl

theorem foldl_mergeOne_people_mem (rs : List SparqlRow) : ∀ (e : MetaAccum) (x : Str),
    x ∈ (rs.foldl mergeOne e).people ↔ x ∈ e.people ∨ ∃ r ∈ rs, r.personLabel = some x := by
  induction rs with
  | nil => intro e x; simp
  | cons r rest ih =>
    intro e x
    simp only [List.foldl_cons]
    rw [ih, mergeOne_people]
    cases hp : r.personLabel with
    | none =>
      simp only [List.mem_cons]
      constructor
      · rintro (h | ⟨r2, hr2, hx⟩)
        · exact Or.inl h
        · exact Or.inr ⟨r2, Or.inr hr2, hx⟩
      · rintro (h | ⟨r2, (rfl | hr2), hx⟩)
        · exact Or.inl h
        · exact absurd (hp ▸ hx) (by simp)
        · exact Or.inr ⟨r2, hr2, hx⟩
    | some p =>
      rw [mem_insertNew]
      simp only [List.mem_cons]
      constructor
      · rintro ((h | rfl) | ⟨r2, hr2, hx⟩)
        · exact Or.inl h
        · exact Or.inr ⟨r, Or.inl rfl, hp⟩
        · exact Or.inr ⟨r2, Or.inr hr2, hx⟩
      · rintro (h | ⟨r2, (rfl | hr2), hx⟩)
        · exact Or.inl (Or.inl h)
        · exact Or.inl (Or.inr (by rw [hp] at hx; injection hx with hx; exact hx.symm))
        · exact Or.inr ⟨r2, hr2, hx⟩

theorem foldl_mergeOne_people_nodup (rs : List SparqlRow) : ∀ e : MetaAccum,
    e.people.Nodup → (rs.foldl mergeOne e).people.Nodup := by
  induction rs with
  | nil => intro e h; exact h
  | cons r rest ih =>
    intro e h
    simp only [List.foldl_cons]
    apply ih
    rw [mergeOne_people]
    cases hp : r.personLabel
    · exact h
    · exact nodup_insertNew _ _ h

theorem dlookup_foldl_mergeRow (rows : List SparqlRow) (qid : Str) :
    ∀ out, dlookup qid (rows.foldl mergeRow out) =
      (match dlookup qid out with
       | some e => some ((rows.filter (fun r => qidOf r.film = qid)).foldl mergeOne e)
       | none =>
         if rows.filter (fun r => qidOf r.film = qid) = [] then none
         else some ((rows.filter (fun r => qidOf r.film = qid)).foldl mergeOne emptyAccum)) := by
  induction rows with
  | nil =>
    intro out
    cases h : dlookup qid out <;> simp [h]
  | cons r rest ih =>
    intro out
    simp only [List.foldl_cons]
    rw [ih]
    by_cases hq : qidOf r.film = qid
    · have hlk : dlookup qid (mergeRow out r) =
          some (mergeOne ((dlookup qid out).getD emptyAccum) r) := by
        unfold mergeRow
        rw [hq, dlookup_dinsert_self]
      rw [hlk]
      cases ho : dlookup qid out <;>
        simp [ho, List.filter_cons, hq]
    · have hlk : dlookup qid (mergeRow out r) = dlookup qid out := by
        unfold mergeRow
        exact dlookup_dinsert_ne _ _ _ _ (fun hc => hq hc.symm)
      rw [hlk]
      simp [List.filter_cons, hq]

theorem dlookup_query_wikidata_batch (rows : List SparqlRow) (qid : Str) :
    dlookup qid (query_wikidata_batch rows) =
      (if rows.filter (fun r => qidOf r.film = qid) = [] then none
       else some (finalizeAccum
         ((rows.filter (fun r => qidOf r.film = qid)).foldl mergeOne emptyAccum))) := by
  unfold query_wikidata_batch
  rw [dlookup_map_value, dlookup_foldl_mergeRow rows qid []]
  by_cases h : rows.filter (fun r => qidOf r.film = qid) = [] <;>
    simp [dlookup, h]

-- ===========================================================================
-- Claim C5
-- ===========================================================================

/-- Claim C5 (counterexample): for Q-ID `Q1` with two result rows whose imdb
bindings are `""` then `"tt123"`, the merge keeps `"tt123"` — the first
truthy value under Python `or` — while the claim's "first non-null" rule
would keep the empty string bound by the first row. -/
theorem c5_counterexample :
    (query_wikidata_batch
        [⟨"entity/Q1".data, some [], some "2005-01-01".data, some "X".data⟩,
         ⟨"entity/Q1".data, some "tt123".data, none, some "Y".data⟩]).map
      (fun p => (p.1, p.2.imdb_id)) = [("Q1".data, some "tt123".data)] ∧
    firstNonNull
      (([⟨"entity/Q1".data, some [], some "2005-01-01".data, some "X".data⟩,
         ⟨"entity/Q1".data, some "tt123".data, none, some "Y".data⟩] :
        List SparqlRow).map SparqlRow.imdb) = some [] ∧
    (some "tt123".data : Option Str) ≠ some [] := by
  refine ⟨rfl, rfl, ?_⟩
  decide

/-- Claim C5 (amended): for every canonical identifier appearing in the
result rows of a batch, the merged record keeps: as external id, the first
non-empty (truthy) id across the identifier's rows, or — when no row has a
non-empty id — the id value of the identifier's last row (null or empty
string, by the Python `or`-fold); as year, the first year successfully
parsed from a date string, malformed dates being skipped without aborting
the batch; and as people, the deduplicated, sorted, `"; "`-joined union of
all person names across those rows. -/
theorem c5_metadata_merge (rows : List SparqlRow) (qid : Str)
    (h : rows.filter (fun r => qidOf r.film = qid) ≠ []) :
    ∃ rec, dlookup qid (query_wikidata_batch rows) = some rec ∧
      rec.imdb_id =
        (match ((rows.filter (fun r => qidOf r.film = qid)).map SparqlRow.imdb).find? truthyS with
         | some v => v
         | none => ((rows.filter (fun r => qidOf r.film = qid)).map SparqlRow.imdb).getLastD none) ∧
      rec.year = (rows.filter (fun r => qidOf r.film = qid)).findSome?
        (fun r => r.date.bind isoDateYear) ∧
      (rec.people = none →
        ∀ x, ¬ ∃ r ∈ rows.filter (fun r => qidOf r.film = qid), r.personLabel = some x) ∧
      (∀ s, rec.people = some s →
        ∃ L, s = joinSemiSpace L ∧ List.Sorted lexLeP L ∧ L.Nodup ∧
          ∀ x, x ∈ L ↔ ∃ r ∈ rows.filter (fun r => qidOf r.film = qid),
            r.personLabel = some x) := by
  rw [dlookup_query_wikidata_batch, if_neg h]
  refine ⟨_, rfl, ?_, ?_, ?_, ?_⟩
  · show ((rows.filter (fun r => qidOf r.film = qid)).foldl mergeOne emptyAccum).imdb_id = _
    rw [foldl_mergeOne_imdb]
    exact foldl_orPy_of_falsy _ none rfl
  · show ((rows.filter (fun r => qidOf r.film = qid)).foldl mergeOne emptyAccum).year = _
    rw [foldl_mergeOne_year]
    rfl
  · intro hnone x hx
    have hacc : ((rows.filter (fun r => qidOf r.film = qid)).foldl mergeOne emptyAccum).people = [] := by
      by_contra hne
      simp [finalizeAccum, hne] at hnone
    have := (foldl_mergeOne_people_mem _ emptyAccum x).mpr (Or.inr hx)
    rw [hacc] at this
    simp at this
  · intro s hs
    have hne : ((rows.filter (fun r => qidOf r.film = qid)).foldl mergeOne emptyAccum).people ≠ [] := by
      intro hz
      simp [finalizeAccum, hz] at hs
    have hsval : s = joinSemiSpace (pySortStr
        ((rows.filter (fun r => qidOf r.film = qid)).foldl mergeOne emptyAccum).people) := by
      simp only [finalizeAccum, if_neg hne] at hs
      exact (Option.some.injEq _ _ ▸ hs).symm
    have hperm : (pySortStr ((rows.filter (fun r => qidOf r.film = qid)).foldl
        mergeOne emptyAccum).people).Perm
        ((rows.filter (fun r => qidOf r.film = qid)).foldl mergeOne emptyAccum).people :=
      List.perm_insertionSort _ _
    refine ⟨_, hsval, ?_, ?_, ?_⟩
    · exact @List.sorted_insertionSort _ lexLeP _
        ⟨fun a b => by simpa [lexLeP, Bool.or_eq_true] using lexLe_total a b⟩
        ⟨fun a b c => lexLe_trans a b c⟩ _
    · exact hperm.nodup_iff.mpr (foldl_mergeOne_people_nodup _ emptyAccum (by simp [emptyAccum]))
    · intro x
      rw [hperm.mem_iff, foldl_mergeOne_people_mem]
      simp [emptyAccum]

/-- Witness for C5 (amended) on a one-row batch for `Q1`. -/
theorem c5_metadata_merge_witness :
    ∃ rec, dlookup "Q1".data (query_wikidata_batch
        [⟨"entity/Q1".data, some "tt1".data, some "2005-01-01".data, some "X".data⟩]) = some rec ∧
      rec.imdb_id =
        (match (([⟨"entity/Q1".data, some "tt1".data, some "2005-01-01".data, some "X".data⟩] :
            List SparqlRow).filter (fun r => qidOf r.film = "Q1".data)).map SparqlRow.imdb
            |>.find? truthyS with
         | some v => v
         | none => (([⟨"entity/Q1".data, some "tt1".data, some "2005-01-01".data,
             some "X".data⟩] : List SparqlRow).filter
             (fun r => qidOf r.film = "Q1".data)).map SparqlRow.imdb |>.getLastD none) ∧
      rec.year = (([⟨"entity/Q1".data, some "tt1".data, some "2005-01-01".data,
          some "X".data⟩] : List SparqlRow).filter
          (fun r => qidOf r.film = "Q1".data)).findSome? (fun r => r.date.bind isoDateYear) ∧
      (rec.people = none →
        ∀ x, ¬ ∃ r ∈ ([⟨"entity/Q1".data, some "tt1".data, some "2005-01-01".data,
          some "X".data⟩] : List SparqlRow).filter (fun r => qidOf r.film = "Q1".data),
          r.personLabel = some x) ∧
      (∀ s, rec.people = some s →
        ∃ L, s = joinSemiSpace L ∧ List.Sorted lexLeP L ∧ L.Nodup ∧
          ∀ x, x ∈ L ↔ ∃ r ∈ ([⟨"entity/Q1".data, some "tt1".data, some "2005-01-01".data,
            some "X".data⟩] : List SparqlRow).filter (fun r => qidOf r.film = "Q1".data),
            r.personLabel = some x) :=
  c5_metadata_merge
    [⟨"entity/Q1".data, some "tt1".data, some "2005-01-01".data, some "X".data⟩]
    "Q1".data (by decide)

-- ===========================================================================
-- Lemmas: splitting and joining people lists
-- ===========================================================================

theorem splitOnCh_ne_nil (sep : Char) (s : Str) : splitOnCh sep s ≠ [] := by
  cases s with
  | nil => simp [splitOnCh]
  | cons c rest =>
    simp only [splitOnCh]
    by_cases hc : c = sep <;> simp [hc]

theorem not_mem_of_mem_splitOnCh (sep : Char) (s : Str) :
    ∀ p ∈ splitOnCh sep s, sep ∉ p := by
  induction s with
  | nil =>
    intro p hp
    simp [splitOnCh] at hp
    simp [hp]
  | cons c rest ih =>
    intro p hp
    cases h : splitOnCh sep rest with
    | nil => exact absurd h (splitOnCh_ne_nil sep rest)
    | cons a t =>
      simp only [splitOnCh, h] at hp
      by_cases hc : c = sep
      · rw [if_pos hc] at hp
        rcases List.mem_cons.mp hp with rfl | hp2
        · simp
        · exact ih p (h ▸ hp2)
      · rw [if_neg hc] at hp
        simp only [List.headD_cons, List.tail_cons] at hp
        rcases List.mem_cons.mp hp with rfl | hp2
        · intro hmem
          rcases List.mem_cons.mp hmem with rfl | hmem2
          · exact hc rfl
          · exact ih a (h ▸ List.mem_cons_self a t) hmem2
        · exact ih p (h ▸ List.mem_cons_of_mem a hp2)

theorem splitOnCh_append_sep (sep : Char) (r : Str) :
    ∀ a : Str, sep ∉ a → splitOnCh sep (a ++ sep :: r) = a :: splitOnCh sep r := by
  intro a
  induction a with
  | nil =>
    intro _
    simp [splitOnCh]
  | cons c a2 ih =>
    intro h
    have hc : c ≠ sep := fun hcc => h (hcc ▸ List.mem_cons_self c a2)
    have ih2 := ih (fun hm => h (List.mem_cons_of_mem c hm))
    simp only [List.cons_append, splitOnCh, List.append_eq]
    rw [ih2]
    simp [hc]

theorem splitOnCh_eq_single (sep : Char) :
    ∀ a : Str, sep ∉ a → splitOnCh sep a = [a] := by
  intro a
  induction a with
  | nil => intro _; rfl
  | cons c a2 ih =>
    intro h
    have hc : c ≠ sep := fun hcc => h (hcc ▸ List.mem_cons_self c a2)
    have ih2 := ih (fun hm => h (List.mem_cons_of_mem c hm))
    simp [splitOnCh, ih2, hc]

theorem splitOnCh_joinSemiSpace :
    ∀ (L2 : List Str) (p : Str), (∀ q ∈ p :: L2, ';' ∉ q) →
      splitOnCh ';' (joinSemiSpace (p :: L2)) = p :: L2.map (fun q => ' ' :: q) := by
  intro L2
  induction L2 with
  | nil =>
    intro p h
    exact splitOnCh_eq_single ';' p (h p (List.mem_cons_self p []))
  | cons q L3 ih =>
    intro p h
    have hp : ';' ∉ p := h p (List.mem_cons_self _ _)
    have hrest : ∀ x ∈ q :: L3, ';' ∉ x := fun x hx => h x (List.mem_cons_of_mem p hx)
    have ihq := ih q hrest
    simp only [joinSemiSpace]
    rw [splitOnCh_append_sep ';' _ p hp]
    simp [splitOnCh, ihq]

theorem joinSemiSpace_ne_nil (L : List Str) (hne : L ≠ []) (hp : ∀ p ∈ L, p ≠ []) :
    joinSemiSpace L ≠ [] := by
  cases L with
  | nil => exact absurd rfl hne
  | cons p L2 =>
    cases L2 with
    | nil => exact hp p (List.mem_cons_self _ _)
    | cons q L3 =>
      simp only [joinSemiSpace]
      intro hcontra
      have := List.append_eq_nil.mp hcontra
      exact absurd this.2 (by simp)

-- ===========================================================================
-- Lemmas: Python strip
-- ===========================================================================

theorem dropWhile_idem (p : Char → Bool) (l : Str) :
    List.dropWhile p (List.dropWhile p l) = List.dropWhile p l := by
  induction l with
  | nil => rfl
  | cons c rest ih =>
    by_cases hc : p c = true
    · rw [List.dropWhile_cons, if_pos hc]
      exact ih
    · rw [List.dropWhile_cons, if_neg hc, List.dropWhile_cons, if_neg hc]

theorem lstrip_idem (s : Str) : lstrip (lstrip s) = lstrip s :=
  dropWhile_idem isPySpace s

theorem rstrip_idem (s : Str) : rstrip (rstrip s) = rstrip s := by
  unfold rstrip
  rw [List.reverse_reverse, dropWhile_idem]

theorem rstrip_cons_not_space (a : Char) (l : Str) (h : isPySpace a = false) :
    rstrip (a :: l) = a :: rstrip l := by
  unfold rstrip
  rw [show (a :: l).reverse = l.reverse ++ [a] by simp]
  rw [List.dropWhile_append]
  by_cases he : (List.dropWhile isPySpace l.reverse).isEmpty = true
  · rw [if_pos he]
    have hl : List.dropWhile isPySpace l.reverse = [] := by
      cases hx : List.dropWhile isPySpace l.reverse
      · rfl
      · rw [hx] at he; simp at he
    simp [List.dropWhile_cons, h, hl]
  · rw [if_neg he]
    simp

theorem lstrip_head_not_space (s : Str) :
    ∀ a t, lstrip s = a :: t → isPySpace a = false := by
  induction s with
  | nil => intro a t h; simp [lstrip] at h
  | cons c rest ih =>
    intro a t h
    by_cases hc : isPySpace c = true
    · rw [lstrip, List.dropWhile_cons, if_pos (by simp [hc])] at h
      exact ih a t h
    · rw [lstrip, List.dropWhile_cons, if_neg (by simp [hc])] at h
      cases h
      simpa using hc

theorem pyStrip_idem (s : Str) : pyStrip (pyStrip s) = pyStrip s := by
  unfold pyStrip
  have hA : lstrip (rstrip (lstrip s)) = rstrip (lstrip s) := by
    cases hl : lstrip s with
    | nil => rfl
    | cons a t =>
      have ha := lstrip_head_not_space s a t hl
      rw [rstrip_cons_not_space a t ha]
      simp [lstrip, List.dropWhile_cons, ha]
  rw [hA, rstrip_idem]

theorem pyStrip_space_cons (p : Str) : pyStrip (' ' :: p) = pyStrip p := by
  unfold pyStrip lstrip
  rw [List.dropWhile_cons, if_pos (by simp [isPySpace])]

theorem mem_of_mem_lstrip {c : Char} {s : Str} (h : c ∈ lstrip s) : c ∈ s :=
  (List.dropWhile_sublist isPySpace).subset h

theorem mem_of_mem_rstrip {c : Char} {s : Str} (h : c ∈ rstrip s) : c ∈ s := by
  unfold rstrip at h
  rw [List.mem_reverse] at h
  exact List.mem_reverse.mp ((List.dropWhile_sublist isPySpace).subset h)

theorem mem_of_mem_pyStrip {c : Char} {s : Str} (h : c ∈ pyStrip s) : c ∈ s :=
  mem_of_mem_lstrip (mem_of_mem_rstrip h)

-- ===========================================================================
-- Lemmas: clean_people structure
-- ===========================================================================

theorem clean_people_join_eval (L : List Str) (hne : L ≠ [])
    (hfacts : ∀ p ∈ L, pyStrip p = p ∧ p ≠ [] ∧ ';' ∉ p)
    (hsorted : List.Sorted lexLeP L) (hnodup : L.Nodup) :
    clean_people (some (joinSemiSpace L)) = some (joinSemiSpace L) ∧
    (splitOnCh ';' (joinSemiSpace L)).map pyStrip = L := by
  obtain ⟨p, L2, rfl⟩ : ∃ p L2, L = p :: L2 := by
    cases L with
    | nil => exact absurd rfl hne
    | cons p L2 => exact ⟨p, L2, rfl⟩
  have hsplit := splitOnCh_joinSemiSpace L2 p (fun q hq => (hfacts q hq).2.2)
  have hmap : (splitOnCh ';' (joinSemiSpace (p :: L2))).map pyStrip = p :: L2 := by
    rw [hsplit]
    simp only [List.map_cons, List.map_map]
    rw [(hfacts p (List.mem_cons_self _ _)).1]
    congr 1
    rw [show (pyStrip ∘ fun q => ' ' :: q) = fun q => pyStrip (' ' :: q) from rfl]
    rw [List.map_congr_left (fun q hq => by
      rw [pyStrip_space_cons, (hfacts q (List.mem_cons_of_mem p hq)).1])]
    exact List.map_id L2
  refine ⟨?_, hmap⟩
  have hjne : joinSemiSpace (p :: L2) ≠ [] :=
    joinSemiSpace_ne_nil _ (by simp) (fun q hq => (hfacts q hq).2.1)
  simp only [clean_people, if_neg hjne]
  rw [hmap]
  have hfilter : (p :: L2).filter (fun q => q ≠ []) = p :: L2 :=
    List.filter_eq_self.mpr (fun q hq => by simp [(hfacts q hq).2.1])
  rw [hfilter, List.dedup_eq_self.mpr hnodup]
  rw [show pySortStr (p :: L2) = p :: L2 from List.Sorted.insertionSort_eq hsorted]
  simp

theorem clean_people_some_spec (s t : Str) (h : clean_people (some s) = some t) :
    ∃ L, t = joinSemiSpace L ∧ L ≠ [] ∧
      (∀ p ∈ L, pyStrip p = p ∧ p ≠ [] ∧ ';' ∉ p) ∧
      List.Sorted lexLeP L ∧ L.Nodup := by
  by_cases hs : s = []
  · simp [clean_people, hs] at h
  · simp only [clean_people, if_neg hs] at h
    set L := pySortStr ((((splitOnCh ';' s).map pyStrip).filter (fun p => p ≠ [])).dedup)
      with hLdef
    by_cases hL : L = []
    · rw [if_pos hL] at h
      exact absurd h (by simp)
    · rw [if_neg hL] at h
      have ht : t = joinSemiSpace L := by
        injection h with h2
        exact h2.symm
      have hperm : L.Perm ((((splitOnCh ';' s).map pyStrip).filter (fun p => p ≠ [])).dedup) :=
        List.perm_insertionSort _ _
      have hmem : ∀ p ∈ L, pyStrip p = p ∧ p ≠ [] ∧ ';' ∉ p := by
        intro p hp
        have hpd := hperm.subset hp
        have hpf := List.dedup_subset _ hpd
        rw [List.mem_filter] at hpf
        obtain ⟨hpm, hpe⟩ := hpf
        rw [List.mem_map] at hpm
        obtain ⟨q, hq, rfl⟩ := hpm
        refine ⟨pyStrip_idem q, by simpa using hpe, fun hc => ?_⟩
        exact not_mem_of_mem_splitOnCh ';' s q hq (mem_of_mem_pyStrip hc)
      refine ⟨L, ht, hL, hmem, ?_, ?_⟩
      · exact @List.sorted_insertionSort _ lexLeP _
          ⟨fun a b => by simpa [lexLeP, Bool.or_eq_true] using lexLe_total a b⟩
          ⟨fun a b c => lexLe_trans a b c⟩ _
      · exact hperm.nodup_iff.mpr (List.nodup_dedup _)

-- ===========================================================================
-- Claim C8
-- ===========================================================================

/-- Claim C8: `normalize_people` is idempotent on every people-list value,
and every non-null normalized output is the `"; "`-join of an alphabetically
sorted, duplicate-free list of entries (recoverable from the output by
splitting on `';'` and stripping). -/
theorem c8_people_idempotent_sorted (s : Option Str) :
    clean_people (clean_people s) = clean_people s ∧
    ∀ t, clean_people s = some t →
      ∃ L, t = joinSemiSpace L ∧ (splitOnCh ';' t).map pyStrip = L ∧
        List.Sorted lexLeP L ∧ L.Nodup := by
  constructor
  · cases s with
    | none => rfl
    | some s =>
      cases h : clean_people (some s) with
      | none => rfl
      | some t =>
        obtain ⟨L, rfl, hne, hfacts, hsorted, hnodup⟩ := clean_people_some_spec s t h
        exact (clean_people_join_eval L hne hfacts hsorted hnodup).1
  · intro t h
    cases s with
    | none => simp [clean_people] at h
    | some s =>
      obtain ⟨L, rfl, hne, hfacts, hsorted, hnodup⟩ := clean_people_some_spec s t h
      exact ⟨L, rfl, (clean_people_join_eval L hne hfacts hsorted hnodup).2, hsorted, hnodup⟩

/-- Witness for C8 on the input `"b; a; a"`, whose normal form is `"a; b"`. -/
theorem c8_people_idempotent_sorted_witness :
    clean_people (clean_people (some "b; a; a".data)) = clean_people (some "b; a; a".data) ∧
    ∃ L, "a; b".data = joinSemiSpace L ∧
      (splitOnCh ';' "a; b".data).map pyStrip = L ∧
      List.Sorted lexLeP L ∧ L.Nodup :=
  ⟨(c8_people_idempotent_sorted (some "b; a; a".data)).1,
   (c8_people_idempotent_sorted (some "b; a; a".data)).2 "a; b".data (by decide)⟩

end FilmScrape
